import Mathlib

/-!
Verification of the core rule logic of `eslint-plugin-pino-logging`.

The plugin's five ESLint rules analyse ESTree call-expression nodes.  We give a
shallow embedding of the slice of ESTree syntax the rules inspect, translate
each rule's decision logic from `src/rules/*.js`, and prove the frozen claims
about them.

Embedding notes:
* Each rule file duplicates the same `isLoggerCall` helper verbatim
  (`no-sensitive-data.js`, `no-string-concat.js`, `requires-message.js`,
  `field-naming`); we define it once.  `error-requires-err.js` has the
  variant `isLoggerErrorCall` restricted to `error`/`fatal`.
* The rules read only these node attributes: `callee.type`, `callee.object`,
  `callee.property`, `arguments`, `arg.type`, `arg.value` (string or not),
  `arg.expressions.length`, `arg.operator`, `obj.properties`, `prop.type`,
  `prop.key.type`, `prop.key.name`.  The embedding carries exactly those;
  attributes no rule ever reads (property values, template quasis, source
  locations) are omitted.  The `computed` flag of a `MemberExpression` is
  carried because the classifier claims quantify over it — note that none of
  the rules ever reads it.
* JavaScript string/regex operations are modelled at ASCII granularity, which
  is exact for the character classes the rules use (`[a-z]`, `[A-Z]`, `[0-9]`,
  `_`) and for `toLowerCase` on ASCII identifiers.
-/

namespace PinoLogging

/-- `typeof value === 'string'` is the only discrimination the rules apply to
a `Literal` node's value. -/
inductive LitValue where
  | str (s : String)
  | nonStr
deriving DecidableEq

/-- The key of a `Property` inside an `ObjectExpression`: the rules test
`prop.key.type === 'Identifier'` and then read `prop.key.name`. -/
inductive ObjKey where
  | ident (name : String)
  | nonIdent
deriving DecidableEq

/-- An element of `ObjectExpression.properties`: a `Property` node (whose value
no rule inspects) or something else (`SpreadElement`, ...), for which the
rules' `prop.type === 'Property'` test fails. -/
inductive ObjProp where
  | property (key : ObjKey)
  | nonProperty
deriving DecidableEq

/-- Argument / sub-expression shapes the rules distinguish.  A
`TemplateLiteral` is recorded by its number of interpolated expressions
(`expressions.length`), a `BinaryExpression` by its `operator`.  Every other
node kind falls into `other`. -/
inductive Expr where
  | identifier (name : String)
  | literal (v : LitValue)
  | objectExpr (props : List ObjProp)
  | templateLiteral (numExpressions : Nat)
  | binaryExpr (op : String)
  | other
deriving DecidableEq

/-- The callee of a `CallExpression`: a `MemberExpression` (with its
`computed` flag) or anything else. -/
inductive Callee where
  | member (object : Expr) (property : Expr) (computed : Bool)
  | nonMember
deriving DecidableEq

/-- A `CallExpression` node as visited by the rules' handlers. -/
structure CallExpression where
  callee : Callee
  arguments : List Expr
deriving DecidableEq

/-! ### Call classifier (`isLoggerCall`, shared by four rules) -/

/-- `const logMethods = ['trace', 'debug', 'info', 'warn', 'error', 'fatal']` -/
def logMethods : List String := ["trace", "debug", "info", "warn", "error", "fatal"]

/-- `isLoggerCall` from `no-sensitive-data.js` / `no-string-concat.js` /
`requires-message.js` / `field-naming` (identical in all four): the callee must
be a `MemberExpression` whose `object` is an `Identifier` named `logger` or
`log` and whose `property` is an `Identifier` whose name is a log method.
The `computed` flag is never consulted. -/
def isLoggerCall (node : CallExpression) : Bool :=
  match node.callee with
  | .member (.identifier objName) (.identifier propName) _ =>
      (objName == "logger" || objName == "log") && logMethods.contains propName
  | _ => false

/-- `isLoggerErrorCall` from `error-requires-err.js`: same shape, but the
method must be `error` or `fatal`. -/
def isLoggerErrorCall (node : CallExpression) : Bool :=
  match node.callee with
  | .member (.identifier objName) (.identifier propName) _ =>
      (objName == "logger" || objName == "log") &&
      (propName == "error" || propName == "fatal")
  | _ => false

/-- `node.callee.property.name`, read by `requires-message` after
`isLoggerCall` has established the property is an identifier (the default is
never reached on qualifying calls). -/
def calleeMethodName (node : CallExpression) : String :=
  match node.callee with
  | .member _ (.identifier propName) _ => propName
  | _ => ""

/-! ### Case analyzer (`field-naming`) -/

/-- The regex character class `[a-z]` (ASCII 97–122). -/
def isLowerAlpha (c : Char) : Bool := 97 ≤ c.toNat && c.toNat ≤ 122

/-- The regex character class `[A-Z]` (ASCII 65–90). -/
def isUpperAlpha (c : Char) : Bool := 65 ≤ c.toNat && c.toNat ≤ 90

/-- The regex character class `[0-9]` (ASCII 48–57). -/
def isDigitChar (c : Char) : Bool := 48 ≤ c.toNat && c.toNat ≤ 57

/-- ASCII case mapping of JavaScript `toLowerCase` on a single character. -/
def toLowerChar (c : Char) : Char :=
  if isUpperAlpha c then Char.ofNat (c.toNat + 32) else c

/-- JavaScript `String.prototype.toLowerCase()` (ASCII). -/
def jsToLower (s : String) : String := ⟨s.data.map toLowerChar⟩

/-- `isSnakeCase(str)`: `/^[a-z][a-z0-9_]*$/.test(str)`. -/
def isSnakeCase (s : String) : Bool :=
  match s.data with
  | [] => false
  | c :: cs => isLowerAlpha c && cs.all fun d => isLowerAlpha d || isDigitChar d || d == '_'

/-- `isCamelCase(str)`: `/^[a-z][a-zA-Z0-9]*$/.test(str)`. -/
def isCamelCase (s : String) : Bool :=
  match s.data with
  | [] => false
  | c :: cs => isLowerAlpha c && cs.all fun d => isLowerAlpha d || isUpperAlpha d || isDigitChar d

/-- `isPascalCase(str)`: `/^[A-Z][a-zA-Z0-9]*$/.test(str)` (defined in the
source, unused by `checkNaming`). -/
def isPascalCase (s : String) : Bool :=
  match s.data with
  | [] => false
  | c :: cs => isUpperAlpha c && cs.all fun d => isLowerAlpha d || isUpperAlpha d || isDigitChar d

/-- `str.replace(/([A-Z])/g, '_$1')`: insert `_` before every ASCII uppercase
letter. -/
def insertUnderscores : List Char → List Char
  | [] => []
  | c :: cs =>
      if isUpperAlpha c then '_' :: c :: insertUnderscores cs
      else c :: insertUnderscores cs

/-- `.replace(/^_/, '')`: strip one leading underscore if present. -/
def stripLeadingUnderscore : List Char → List Char
  | '_' :: cs => cs
  | cs => cs

/-- `toSnakeCase(str)`:
`str.replace(/([A-Z])/g, '_$1').toLowerCase().replace(/^_/, '')`. -/
def toSnakeCase (s : String) : String :=
  ⟨stripLeadingUnderscore ((insertUnderscores s.data).map toLowerChar)⟩

/-! ### Rule `no-sensitive-data` -/

/-- `SENSITIVE_FIELD_NAMES` (module-level constant of `no-sensitive-data.js`). -/
def SENSITIVE_FIELD_NAMES : List String :=
  ["password", "pwd", "passwd", "secret", "api_key", "apikey", "token",
   "access_token", "refresh_token", "jwt", "bearer", "auth", "authorization",
   "credit_card", "card_number", "cvv", "ssn", "private_key", "privatekey"]

/-- `SENSITIVE_PATTERNS`, the six regexes `/password/i`, `/secret/i`,
`/token/i`, `/key/i`, `/auth/i`, `/credential/i`, each an unanchored
case-insensitive substring test, recorded here by its literal text. -/
def SENSITIVE_PATTERNS : List String :=
  ["password", "secret", "token", "key", "auth", "credential"]

/-- Substring scan: does `pat` occur contiguously inside `l`?  (The match
attempt at each position, as a regex engine without metacharacters does.) -/
def containsSub (pat : List Char) : List Char → Bool
  | [] => pat.isEmpty
  | c :: cs => pat.isPrefixOf (c :: cs) || containsSub pat cs

/-- `/pat/i.test(s)` for a pattern that is a plain word: case-insensitive
substring containment. -/
def patternTest (pat s : String) : Bool :=
  containsSub (jsToLower pat).data (jsToLower s).data

/-- The hard-violation message built by `checkObjectForSensitiveData` on an
exact-list match. -/
def hardMessage (name : String) : String :=
  "Sensitive field '" ++ name ++ "' should not be logged. Use serializers to redact sensitive data."

/-- The soft-violation message built on a heuristic-pattern match. -/
def softMessage (name : String) : String :=
  "Potentially sensitive field '" ++ name ++ "' detected. Use serializers if this contains sensitive data."

/-- Per-field body of the `for (const prop of node.properties)` loop of
`checkObjectForSensitiveData`: lower-case the key name; on an exact
`SENSITIVE_FIELD_NAMES` match report the hard message and `continue` (the
pattern layer is skipped); otherwise the first matching pattern reports the
soft message and `break`s out of the pattern loop. -/
def sensitiveFieldCheck (name : String) : Option String :=
  let keyName := jsToLower name
  if SENSITIVE_FIELD_NAMES.contains keyName then
    some (hardMessage name)
  else
    match SENSITIVE_PATTERNS.find? (fun pat => patternTest pat keyName) with
    | some _ => some (softMessage name)
    | none => none

/-- `checkObjectForSensitiveData(node, context)` restricted to an
`ObjectExpression`'s property list: properties that are not `Property` nodes
with `Identifier` keys are skipped; each remaining field contributes the
report (if any) of `sensitiveFieldCheck`.  Note the function reads the
module-level `SENSITIVE_FIELD_NAMES` only — it receives no per-configuration
list. -/
def checkObjectForSensitiveData (props : List ObjProp) : List String :=
  props.filterMap fun prop =>
    match prop with
    | .property (.ident name) => sensitiveFieldCheck name
    | _ => none

/-- `allBlockedFields` as computed inside `create(context)`:
`[...SENSITIVE_FIELD_NAMES, ...customBlockedFields.map(f => f.toLowerCase())]`.
The source computes this list and then never uses it: the `CallExpression`
handler calls `checkObjectForSensitiveData`, which consults only
`SENSITIVE_FIELD_NAMES`. -/
def allBlockedFields (blockedFields : List String) : List String :=
  SENSITIVE_FIELD_NAMES ++ blockedFields.map jsToLower

/-- The `CallExpression` handler returned by `create(context)` of
`no-sensitive-data.js`, with `blockedFields` the configured
`options.blockedFields || []`.  Only the first argument, when it is an
`ObjectExpression`, is scanned. -/
def noSensitiveDataCheck (blockedFields : List String) (node : CallExpression) : List String :=
  let _allBlockedFields := allBlockedFields blockedFields
  if isLoggerCall node then
    match node.arguments.head? with
    | some (.objectExpr props) => checkObjectForSensitiveData props
    | _ => []
  else []

/-! ### Rule `no-string-concat` -/

/-- A report of `no-string-concat`: the messageId and the (always absent) fix
descriptor — the rule's `context.report` calls carry no `fix` property. -/
structure ConcatReport where
  messageId : String
  fix : Option String
deriving DecidableEq

/-- Loop body of the `for (const arg of node.arguments)` loop: a
`TemplateLiteral` with `expressions.length > 0` reports `noTemplateLiteral`,
and a `BinaryExpression` with operator `+` reports `noStringConcat` (two
independent `if`s in the source, hence list append). -/
def concatArgReports (arg : Expr) : List ConcatReport :=
  (match arg with
   | .templateLiteral n => if n > 0 then [⟨"noTemplateLiteral", none⟩] else []
   | _ => []) ++
  (match arg with
   | .binaryExpr op => if op == "+" then [⟨"noStringConcat", none⟩] else []
   | _ => [])

/-- The `CallExpression` handler of `no-string-concat.js`: every argument
position is inspected. -/
def noStringConcatCheck (node : CallExpression) : List ConcatReport :=
  if isLoggerCall node then node.arguments.flatMap concatArgReports
  else []

/-! ### Rule `error-requires-err` -/

/-- `hasErrProperty(node)`: `node` is an `ObjectExpression` one of whose
properties is a `Property` with an `Identifier` key named exactly `err` or
`error`. -/
def hasErrProperty (e : Expr) : Bool :=
  match e with
  | .objectExpr props =>
      props.any fun prop =>
        match prop with
        | .property (.ident name) => name == "err" || name == "error"
        | _ => false
  | _ => false

/-- The `CallExpression` handler of `error-requires-err.js`.  In source
order: a string `Literal` first argument reports and returns; an
`ObjectExpression` first argument reports unless `hasErrProperty`; any other
present first argument is skipped; no argument at all reports. -/
def errorRequiresErrCheck (node : CallExpression) : List String :=
  if isLoggerErrorCall node then
    match node.arguments.head? with
    | some (.literal (.str _)) => ["missingErrObject"]
    | some (.objectExpr props) =>
        if hasErrProperty (.objectExpr props) then [] else ["missingErrObject"]
    | some _ => []
    | none => ["missingErrObject"]
  else []

/-! ### Rule `requires-message` -/

/-- A report of `requires-message`: messageId `missingMessage` with the
method name as interpolation datum. -/
structure MsgReport where
  messageId : String
  method : String
deriving DecidableEq

/-- The `CallExpression` handler of `requires-message.js`: zero arguments
report; a single `ObjectExpression` argument reports; a single argument of
any other shape and calls with two or more arguments do not. -/
def requiresMessageCheck (node : CallExpression) : List MsgReport :=
  if isLoggerCall node then
    let methodName := calleeMethodName node
    match node.arguments with
    | [] => [⟨"missingMessage", methodName⟩]
    | [firstArg] =>
        match firstArg with
        | .objectExpr _ => [⟨"missingMessage", methodName⟩]
        | _ => []
    | _ => []
  else []

/-! ### Rule `field-naming` -/

/-- `checkNaming(fieldName)` with the configured convention string (the
schema restricts it to `snake_case` / `camelCase`; the source falls through
to `true` for anything else). -/
def checkNaming (convention fieldName : String) : Bool :=
  if convention == "snake_case" then isSnakeCase fieldName
  else if convention == "camelCase" then isCamelCase fieldName
  else true

/-- `getSuggestion(fieldName)`: `toSnakeCase` under `snake_case`; under any
other convention there is no converter and the original string is returned. -/
def getSuggestion (convention fieldName : String) : String :=
  if convention == "snake_case" then toSnakeCase fieldName
  else fieldName

/-- `const standardFields = [...]`, exempt from naming checks. -/
def standardFields : List String :=
  ["err", "error", "req", "res", "msg", "time", "level", "pid", "hostname"]

/-- A report of `field-naming`: the offending key, the suggested replacement
(interpolated into the message), and the fix descriptor — `some s` models
`fixer.replaceText(prop.key, s)`, `none` models the fixer returning `null`. -/
structure NamingReport where
  fieldName : String
  suggestion : String
  fix : Option String
deriving DecidableEq

/-- Per-property body of the `field-naming` handler's loop: skip non-plain
keys, standard fields and conforming names; otherwise report with a
suggestion, attaching a fix only if the suggestion differs from the original
and itself passes `checkNaming`. -/
def fieldNamingPropCheck (convention : String) (prop : ObjProp) : Option NamingReport :=
  match prop with
  | .property (.ident fieldName) =>
      if standardFields.contains fieldName then none
      else if checkNaming convention fieldName then none
      else
        let suggestion := getSuggestion convention fieldName
        some ⟨fieldName, suggestion,
              if suggestion != fieldName && checkNaming convention suggestion
              then some suggestion else none⟩
  | _ => none

/-- The `CallExpression` handler of the `field-naming` rule;
`conventionOpt = none` models an absent `options.convention`, defaulted to
`snake_case` by `options.convention || 'snake_case'`. -/
def fieldNamingCheck (conventionOpt : Option String) (node : CallExpression) : List NamingReport :=
  let convention := conventionOpt.getD "snake_case"
  if isLoggerCall node then
    match node.arguments.head? with
    | some (.objectExpr props) => props.filterMap (fieldNamingPropCheck convention)
    | _ => []
  else []

/-! ## Helper lemmas -/

/-- A character allowed after the head by `/^[a-z][a-z0-9_]*$/` is not an
ASCII uppercase letter. -/
theorem isUpperAlpha_eq_false_of_snakeChar (c : Char)
    (h : (isLowerAlpha c || isDigitChar c || c == '_') = true) :
    isUpperAlpha c = false := by
  rcases Bool.or_eq_true_iff.mp h with h' | hu
  · rcases Bool.or_eq_true_iff.mp h' with hl | hd
    · simp only [isLowerAlpha, Bool.and_eq_true, decide_eq_true_eq] at hl
      simp only [isUpperAlpha, Bool.and_eq_false_iff, decide_eq_false_iff_not]
      omega
    · simp only [isDigitChar, Bool.and_eq_true, decide_eq_true_eq] at hd
      simp only [isUpperAlpha, Bool.and_eq_false_iff, decide_eq_false_iff_not]
      omega
  · rw [eq_of_beq hu]
    rfl

/-- `toLowerChar` fixes everything that is not an ASCII uppercase letter. -/
theorem toLowerChar_eq_self (c : Char) (h : isUpperAlpha c = false) :
    toLowerChar c = c := by
  simp [toLowerChar, h]

/-- Inserting underscores before uppercase letters is the identity on a list
with no uppercase letter. -/
theorem insertUnderscores_eq_self (l : List Char)
    (h : ∀ c ∈ l, isUpperAlpha c = false) : insertUnderscores l = l := by
  induction l with
  | nil => rfl
  | cons c cs ih =>
      have hc := h c (List.mem_cons_self c cs)
      simp only [insertUnderscores, hc, Bool.false_eq_true, if_false, List.cons.injEq, true_and]
      exact ih fun d hd => h d (List.mem_cons_of_mem c hd)

/-- Lowercasing is the identity on a list with no uppercase letter. -/
theorem map_toLowerChar_eq_self (l : List Char)
    (h : ∀ c ∈ l, isUpperAlpha c = false) : l.map toLowerChar = l := by
  induction l with
  | nil => rfl
  | cons c cs ih =>
      simp only [List.map_cons, toLowerChar_eq_self c (h c (List.mem_cons_self c cs)),
        List.cons.injEq, true_and]
      exact ih fun d hd => h d (List.mem_cons_of_mem c hd)

/-- Stripping a leading underscore is the identity when the list does not
start with one. -/
theorem stripLeadingUnderscore_eq_self (l : List Char) (h : l.head? ≠ some '_') :
    stripLeadingUnderscore l = l := by
  unfold stripLeadingUnderscore
  split
  · exact absurd rfl h
  · rfl

/-- Pointwise overlap of the tail character classes of the `isSnakeCase` and
`isCamelCase` regexes: `[a-z0-9_] ∩ [a-zA-Z0-9] = [a-z0-9]`. -/
theorem snakeCamel_tailChar_overlap (c : Char) :
    ((isLowerAlpha c || isDigitChar c || c == '_') &&
     (isLowerAlpha c || isUpperAlpha c || isDigitChar c)) =
    (isLowerAlpha c || isDigitChar c) := by
  by_cases hc : c = '_'
  · subst hc; rfl
  · have hne : (c == '_') = false := by
      simpa using hc
    cases hl : isLowerAlpha c <;> cases hd : isDigitChar c <;> simp [hne, hl, hd]

/-! ## Claims about the case analyzer -/

/-- Claim C3 as stated is false: `"abc"` satisfies both `isSnakeCase` and
`isCamelCase` (a fully lowercase alphabetic string matches both
`/^[a-z][a-z0-9_]*$/` and `/^[a-z][a-zA-Z0-9]*$/`). -/
theorem C3_counterexample :
    isSnakeCase "abc" = true ∧ isCamelCase "abc" = true := by
  decide

/-- Claim C3 (amended): the two convention predicates do overlap, and they
hold simultaneously exactly on the nonempty strings that start with a
lowercase ASCII letter and continue with lowercase letters and digits only
(no underscore, no uppercase letter). -/
theorem C3_overlap_characterization (s : String) :
    (isSnakeCase s = true ∧ isCamelCase s = true) ↔
    ∃ c cs, s.data = c :: cs ∧ isLowerAlpha c = true ∧
      ∀ d ∈ cs, (isLowerAlpha d || isDigitChar d) = true := by
  rcases hd : s.data with _ | ⟨c, cs⟩
  · simp [isSnakeCase, isCamelCase, hd]
  · simp only [isSnakeCase, isCamelCase, hd, Bool.and_eq_true, List.all_eq_true,
      List.cons.injEq]
    constructor
    · rintro ⟨⟨hc, hsnake⟩, -, hcamel⟩
      refine ⟨c, cs, ⟨rfl, rfl⟩, hc, fun d hdm => ?_⟩
      rw [← snakeCamel_tailChar_overlap d]
      simp [hsnake d hdm, hcamel d hdm]
    · rintro ⟨c', cs', ⟨hc, hcs⟩, hlow, htail⟩
      subst hc; subst hcs
      refine ⟨⟨hlow, fun d hdm => ?_⟩, hlow, fun d hdm => ?_⟩ <;>
        · have := htail d hdm
          rcases Bool.or_eq_true_iff.mp this with h | h <;> simp [h]

/-- Witness for C3 (amended) at `s = "user1"`. -/
theorem C3_witness : isSnakeCase "user1" = true ∧ isCamelCase "user1" = true :=
  (C3_overlap_characterization "user1").mpr
    ⟨'u', ['s', 'e', 'r', '1'], by decide, by decide, by decide⟩

/-- Claim C4 as stated is false: `"_foo"` consists only of lowercase letters,
digits and underscores, yet `toSnakeCase "_foo" = "foo"` — the final
`.replace(/^_/, '')` strips a leading underscore whether or not it was
inserted by the uppercase pass. -/
theorem C4_counterexample :
    ("_foo".data.all fun c => isLowerAlpha c || isDigitChar c || c == '_') = true ∧
    toSnakeCase "_foo" ≠ "_foo" := by
  decide

/-- Claim C4 (amended): for every string of lowercase letters, digits and
underscores that does not begin with an underscore, `toSnakeCase` is the
identity. -/
theorem C4_toSnakeCase_identity (s : String)
    (h : ∀ c ∈ s.data, (isLowerAlpha c || isDigitChar c || c == '_') = true)
    (h0 : s.data.head? ≠ some '_') :
    toSnakeCase s = s := by
  have hupper : ∀ c ∈ s.data, isUpperAlpha c = false :=
    fun c hc => isUpperAlpha_eq_false_of_snakeChar c (h c hc)
  have h1 : insertUnderscores s.data = s.data := insertUnderscores_eq_self s.data hupper
  have h2 : s.data.map toLowerChar = s.data := map_toLowerChar_eq_self s.data hupper
  have h3 : stripLeadingUnderscore s.data = s.data := stripLeadingUnderscore_eq_self s.data h0
  cases s with
  | mk data =>
      simp only [toSnakeCase] at *
      rw [h1, h2, h3]

/-- Witness for C4 (amended) at `s = "user_id"`. -/
theorem C4_witness : toSnakeCase "user_id" = "user_id" :=
  C4_toSnakeCase_identity "user_id" (by decide) (by decide)

/-! ## Claims about the call classifier -/

/-- Claim C2 as stated is false: `logger[info](...)` — a computed
(bracket-indexed) member access whose bracketed expression is the bare
identifier `info` — is classified as a log call (the classifier checks only
`property.type === 'Identifier'`, never `computed`), and the
message-presence checker does report on it. -/
theorem C2_counterexample :
    isLoggerCall ⟨.member (.identifier "logger") (.identifier "info") true, []⟩ = true ∧
    requiresMessageCheck ⟨.member (.identifier "logger") (.identifier "info") true, []⟩ =
      [⟨"missingMessage", "info"⟩] := by
  decide

/-- Claim C2 (amended): the call classifier never consults the `computed`
flag — its verdict on a member-callee call is invariant under that flag — and
a computed access whose bracketed expression is not a bare identifier (e.g. a
string-literal method name, `logger['info']`) never qualifies.  Consequently
`logger[x](...)` with `x` a bare identifier named one of the six methods does
qualify. -/
theorem C2_classifier_ignores_computed :
    (∀ (obj prop : Expr) (b : Bool) (args : List Expr),
       isLoggerCall ⟨.member obj prop b, args⟩ =
       isLoggerCall ⟨.member obj prop false, args⟩) ∧
    (∀ (obj prop : Expr) (b : Bool) (args : List Expr),
       (∀ name, prop ≠ .identifier name) →
       isLoggerCall ⟨.member obj prop b, args⟩ = false) := by
  constructor
  · intro obj prop b args
    cases obj <;> cases prop <;> rfl
  · intro obj prop b args h
    cases prop with
    | identifier n => exact absurd rfl (h n)
    | _ => cases obj <;> rfl

/-- Witness for C2 (amended): `logger['info'](...)` is not a log call. -/
theorem C2_witness :
    isLoggerCall ⟨.member (.identifier "logger") (.literal (.str "info")) true, []⟩ = false :=
  C2_classifier_ignores_computed.2 (.identifier "logger") (.literal (.str "info")) true []
    (fun _ h => by cases h)

/-! ## Claims about rule `no-sensitive-data` -/

/-- Claim C1 is a bug in the code: with configured
`blockedFields = ["username"]`, the call `logger.info({ username: u })`
yields no report, although `username` is in the merged block list
`allBlockedFields` the rule's `create` computes — `create` never passes that
list on, and `checkObjectForSensitiveData` consults only the built-in
`SENSITIVE_FIELD_NAMES`. -/
theorem C1_blockedFields_ignored :
    noSensitiveDataCheck ["username"]
      ⟨.member (.identifier "logger") (.identifier "info") false,
       [.objectExpr [.property (.ident "username")]]⟩ = [] ∧
    "username" ∈ allBlockedFields ["username"] := by
  decide

/-- Claim C6: per field with a plain-identifier key, an exact-list match (on
the lower-cased name) reports exactly the hard violation, skipping the
pattern layer; otherwise a field matching some heuristic pattern reports
exactly the one softer violation; a field matching neither reports nothing;
and an object's report list never exceeds one report per property. -/
theorem C6_security_per_field :
    (∀ name, jsToLower name ∈ SENSITIVE_FIELD_NAMES →
        sensitiveFieldCheck name = some (hardMessage name)) ∧
    (∀ name, jsToLower name ∉ SENSITIVE_FIELD_NAMES →
        (∃ pat ∈ SENSITIVE_PATTERNS, patternTest pat (jsToLower name) = true) →
        sensitiveFieldCheck name = some (softMessage name)) ∧
    (∀ name, jsToLower name ∉ SENSITIVE_FIELD_NAMES →
        (∀ pat ∈ SENSITIVE_PATTERNS, patternTest pat (jsToLower name) = false) →
        sensitiveFieldCheck name = none) ∧
    (∀ props, (checkObjectForSensitiveData props).length ≤ props.length) := by
  have hcon : ∀ name, SENSITIVE_FIELD_NAMES.contains (jsToLower name) =
      decide (jsToLower name ∈ SENSITIVE_FIELD_NAMES) := by
    intro name
    simp [List.contains, List.elem_eq_mem]
  refine ⟨?_, ?_, ?_, ?_⟩
  · intro name h
    simp only [sensitiveFieldCheck, hcon, h]
    simp
  · intro name hnot hex
    obtain ⟨x, hx⟩ := Option.isSome_iff_exists.mp (List.find?_isSome.mpr hex)
    simp only [sensitiveFieldCheck, hcon, hnot, hx]
    simp
  · intro name hnot hmiss
    have hnone : SENSITIVE_PATTERNS.find?
        (fun pat => patternTest pat (jsToLower name)) = none :=
      List.find?_eq_none.mpr fun pat hpat => by simp [hmiss pat hpat]
    simp only [sensitiveFieldCheck, hcon, hnot, hnone]
    simp
  · intro props
    exact List.length_filterMap_le _ props

/-- Witness for C6: `password` reports the hard violation, `passwordHash`
(not exact-listed, matched by the `password` pattern) the soft one. -/
theorem C6_witness :
    sensitiveFieldCheck "password" = some (hardMessage "password") ∧
    sensitiveFieldCheck "passwordHash" = some (softMessage "passwordHash") :=
  ⟨C6_security_per_field.1 "password" (by decide),
   C6_security_per_field.2.1 "passwordHash" (by decide)
     ⟨"password", by decide, by decide⟩⟩

/-! ## Claims about rule `error-requires-err` -/

/-- `hasErrProperty` holds exactly when some property is a `Property` node
with an `Identifier` key named `err` or `error`. -/
theorem hasErrProperty_iff (props : List ObjProp) :
    hasErrProperty (.objectExpr props) = true ↔
      ∃ name, (name = "err" ∨ name = "error") ∧
        ObjProp.property (ObjKey.ident name) ∈ props := by
  simp only [hasErrProperty, List.any_eq_true]
  constructor
  · rintro ⟨prop, hmem, hp⟩
    rcases prop with key | _
    · rcases key with name | _
      · rcases Bool.or_eq_true_iff.mp hp with h | h
        · exact ⟨name, Or.inl (eq_of_beq h), hmem⟩
        · exact ⟨name, Or.inr (eq_of_beq h), hmem⟩
      · exact absurd hp (by simp)
    · exact absurd hp (by simp)
  · rintro ⟨name, hor, hmem⟩
    exact ⟨_, hmem, by rcases hor with rfl | rfl <;> rfl⟩

/-- Claim C7: for a call with method `error` or `fatal`, the checker reports
exactly when the call has no arguments, or its first argument is a string
literal, or its first argument is an object literal with no plain-identifier
`err`/`error` key; every other first-argument shape reports nothing. -/
theorem C7_error_object_characterization (node : CallExpression)
    (h : isLoggerErrorCall node = true) :
    errorRequiresErrCheck node ≠ [] ↔
      (node.arguments = [] ∨
       (∃ s rest, node.arguments = Expr.literal (.str s) :: rest) ∨
       (∃ props rest, node.arguments = Expr.objectExpr props :: rest ∧
         ¬ ∃ name, (name = "err" ∨ name = "error") ∧
             ObjProp.property (ObjKey.ident name) ∈ props)) := by
  unfold errorRequiresErrCheck
  rw [h]
  rcases harg : node.arguments with _ | ⟨first, rest⟩
  · simp
  · rcases first with name | v | props | n | op | _
    · simp
    · rcases v with s | _ <;> simp
    · by_cases herr : hasErrProperty (.objectExpr props) = true
      · obtain ⟨name, hor, hmem⟩ := (hasErrProperty_iff props).mp herr
        simp [herr]
        rcases hor with rfl | rfl
        · exact fun h' => absurd hmem h'
        · exact fun _ => hmem
      · simp [herr]
        exact ⟨fun hmem' => herr ((hasErrProperty_iff props).mpr ⟨"err", Or.inl rfl, hmem'⟩),
               fun hmem' => herr ((hasErrProperty_iff props).mpr ⟨"error", Or.inr rfl, hmem'⟩)⟩
    · simp
    · simp
    · simp

/-- Witness for C7: `logger.error()` (no arguments) reports. -/
theorem C7_witness :
    errorRequiresErrCheck
      ⟨.member (.identifier "logger") (.identifier "error") false, []⟩ ≠ [] :=
  (C7_error_object_characterization
      ⟨.member (.identifier "logger") (.identifier "error") false, []⟩
      (by decide)).mpr (Or.inl rfl)

/-- Claim C10: an `error`/`fatal` call whose first argument is a template
literal — with any number of interpolations, including zero — produces no
report from the error-object checker: a template literal is neither a
`Literal` with a string value nor an `ObjectExpression`, so it falls into the
skipped unknown-shape branch. -/
theorem C10_template_first_arg_skipped (node : CallExpression) (n : Nat)
    (rest : List Expr) (h : isLoggerErrorCall node = true)
    (ha : node.arguments = Expr.templateLiteral n :: rest) :
    errorRequiresErrCheck node = [] := by
  unfold errorRequiresErrCheck
  simp [h, ha]

/-- Witness for C10: ``logger.error(`failed`)`` (zero interpolations). -/
theorem C10_witness :
    errorRequiresErrCheck
      ⟨.member (.identifier "logger") (.identifier "error") false,
       [.templateLiteral 0]⟩ = [] :=
  C10_template_first_arg_skipped
    ⟨.member (.identifier "logger") (.identifier "error") false, [.templateLiteral 0]⟩
    0 [] (by decide) rfl

/-! ## Claim about rule `requires-message` -/

/-- Claim C8: a qualifying log call is reported exactly when it has zero
arguments or exactly one argument that is an object literal; a single string
literal, a single argument of any other shape, and two or more arguments
report nothing. -/
theorem C8_message_presence (node : CallExpression) (h : isLoggerCall node = true) :
    requiresMessageCheck node ≠ [] ↔
      (node.arguments = [] ∨ ∃ props, node.arguments = [Expr.objectExpr props]) := by
  unfold requiresMessageCheck
  rw [h]
  rcases harg : node.arguments with _ | ⟨first, rest⟩
  · simp
  · rcases rest with _ | ⟨second, rest2⟩
    · rcases first with name | v | props | n | op | _ <;> simp
    · simp

/-- Witness for C8: `logger.info({ user_id: 1 })` (fields, no message)
reports. -/
theorem C8_witness :
    requiresMessageCheck
      ⟨.member (.identifier "logger") (.identifier "info") false,
       [.objectExpr [.property (.ident "user_id")]]⟩ ≠ [] :=
  (C8_message_presence
      ⟨.member (.identifier "logger") (.identifier "info") false,
       [.objectExpr [.property (.ident "user_id")]]⟩
      (by decide)).mpr (Or.inr ⟨[.property (.ident "user_id")], rfl⟩)

/-! ## Claim about rule `no-string-concat` -/

/-- Every report the per-argument inspection emits carries no fix. -/
theorem concatArgReports_fix_none (arg : Expr) (r : ConcatReport)
    (hr : r ∈ concatArgReports arg) : r.fix = none := by
  rcases arg with name | v | props | n | op | _ <;>
    simp only [concatArgReports, List.append_nil, List.nil_append] at hr
  case templateLiteral =>
    split at hr
    · have heq := List.mem_singleton.mp hr
      subst heq; rfl
    · exact absurd hr (List.not_mem_nil r)
  case binaryExpr =>
    split at hr
    · have heq := List.mem_singleton.mp hr
      subst heq; rfl
    · exact absurd hr (List.not_mem_nil r)
  all_goals exact absurd hr (List.not_mem_nil r)

/-- Claim C9: for a qualifying call the checker walks every argument
position, emitting per template-literal argument with at least one
interpolation one `noTemplateLiteral` report, per binary `+` argument one
(distinctly-worded) `noStringConcat` report regardless of operand types, and
nothing for an interpolation-free template literal; no report of this rule
ever carries a fix. -/
theorem C9_structured_logging (node : CallExpression) (h : isLoggerCall node = true) :
    noStringConcatCheck node = node.arguments.flatMap concatArgReports ∧
    (∀ r ∈ noStringConcatCheck node, r.fix = none) ∧
    (∀ n, 0 < n →
        concatArgReports (.templateLiteral n) = [⟨"noTemplateLiteral", none⟩]) ∧
    concatArgReports (.templateLiteral 0) = [] ∧
    (∀ op, concatArgReports (.binaryExpr op) =
        if op = "+" then [⟨"noStringConcat", none⟩] else []) ∧
    ("noTemplateLiteral" : String) ≠ "noStringConcat" := by
  refine ⟨by simp [noStringConcatCheck, h], ?_, ?_, rfl, ?_, by decide⟩
  · intro r hr
    simp only [noStringConcatCheck, h, if_true] at hr
    obtain ⟨arg, -, hrmem⟩ := List.mem_flatMap.mp hr
    exact concatArgReports_fix_none arg r hrmem
  · intro n hn
    simp [concatArgReports, hn]
  · intro op
    by_cases hop : op = "+"
    · subst hop; rfl
    · simp [concatArgReports, hop]

/-- Witness for C9 at ``logger.warn(`User ${id}`, 'a' + b, `plain`)``. -/
theorem C9_witness :
    noStringConcatCheck
      ⟨.member (.identifier "logger") (.identifier "warn") false,
       [.templateLiteral 1, .binaryExpr "+", .templateLiteral 0]⟩ =
      [.templateLiteral 1, .binaryExpr "+", .templateLiteral 0].flatMap
        concatArgReports :=
  (C9_structured_logging
      ⟨.member (.identifier "logger") (.identifier "warn") false,
       [.templateLiteral 1, .binaryExpr "+", .templateLiteral 0]⟩
      (by decide)).1

/-! ## Claim about rule `field-naming` -/

/-- Per-property fix soundness: a report produced by the loop body only
carries a fix that passes the convention check and differs from the original
key, and under `camelCase` it never carries one. -/
theorem fieldNamingPropCheck_fix (convention : String) (prop : ObjProp)
    (r : NamingReport) (h : fieldNamingPropCheck convention prop = some r) :
    (∀ s, r.fix = some s → checkNaming convention s = true ∧ s ≠ r.fieldName) ∧
    (convention = "camelCase" → r.fix = none) := by
  rcases prop with key | _
  · rcases key with fieldName | _
    · simp only [fieldNamingPropCheck] at h
      split at h
      · exact absurd h (by simp)
      · split at h
        · exact absurd h (by simp)
        · rw [Option.some_inj] at h
          subst h
          constructor
          · intro s hs
            simp only at hs
            split at hs
            · rename_i hcond
              rw [Option.some_inj] at hs
              subst hs
              rw [Bool.and_eq_true] at hcond
              obtain ⟨hne, hpass⟩ := hcond
              refine ⟨hpass, ?_⟩
              simpa [bne_iff_ne] using hne
            · exact absurd hs (by simp)
          · intro hcam
            subst hcam
            simp [getSuggestion]
    · exact absurd h (by simp [fieldNamingPropCheck])
  · exact absurd h (by simp [fieldNamingPropCheck])

/-- Claim C5: a field-naming report's fix, when present, is a replacement
that itself passes the configured convention check and differs from the
original key; and under the `camelCase` convention no report ever carries a
fix. -/
theorem C5_fix_soundness :
    (∀ (conventionOpt : Option String) (node : CallExpression)
        (r : NamingReport) (s : String),
        r ∈ fieldNamingCheck conventionOpt node → r.fix = some s →
        checkNaming (conventionOpt.getD "snake_case") s = true ∧ s ≠ r.fieldName) ∧
    (∀ (node : CallExpression) (r : NamingReport),
        r ∈ fieldNamingCheck (some "camelCase") node → r.fix = none) := by
  have key : ∀ (conventionOpt : Option String) (node : CallExpression)
      (r : NamingReport), r ∈ fieldNamingCheck conventionOpt node →
      ∃ prop, fieldNamingPropCheck (conventionOpt.getD "snake_case") prop = some r := by
    intro conventionOpt node r hmem
    simp only [fieldNamingCheck] at hmem
    by_cases hl : isLoggerCall node
    · rw [if_pos hl] at hmem
      rcases hhead : node.arguments.head? with - | first
      · rw [hhead] at hmem
        exact absurd hmem (by simp)
      · rw [hhead] at hmem
        rcases first with name | v | props | n | op | _
        · exact absurd hmem (by simp)
        · exact absurd hmem (by simp)
        · obtain ⟨prop, -, hp⟩ := List.mem_filterMap.mp hmem
          exact ⟨prop, hp⟩
        · exact absurd hmem (by simp)
        · exact absurd hmem (by simp)
        · exact absurd hmem (by simp)
    · rw [if_neg hl] at hmem
      exact absurd hmem (by simp)
  constructor
  · intro conventionOpt node r s hmem hfix
    obtain ⟨prop, hp⟩ := key conventionOpt node r hmem
    exact (fieldNamingPropCheck_fix _ prop r hp).1 s hfix
  · intro node r hmem
    obtain ⟨prop, hp⟩ := key (some "camelCase") node r hmem
    exact (fieldNamingPropCheck_fix _ prop r hp).2 rfl

/-- Witness for C5: the report on `userId` under the default convention
carries the fix `user_id`, which passes `isSnakeCase` and differs. -/
theorem C5_witness :
    checkNaming "snake_case" "user_id" = true ∧ "user_id" ≠ "userId" :=
  C5_fix_soundness.1 none
    ⟨.member (.identifier "logger") (.identifier "info") false,
     [.objectExpr [.property (.ident "userId")]]⟩
    ⟨"userId", "user_id", some "user_id"⟩ "user_id" (by decide) rfl

end PinoLogging
